import Mathlib

/-!
Verification development for the ddsm repository (multinormal/ddsm).

The repository has two independent pipelines:

1. ddsmraw2pnm.c : converts a DDSM raw byte stream (big-endian 16-bit
   samples) to a plain PNM text image, calibrating each raw sample to an
   optical density (per digitizer) and then normalising to a companded,
   inverted 16-bit grey level.

2. get_ddsm_groundtruth.m : parses an OVERLAY annotation file and turns
   chain codes into binary annotation masks.

The embedding below translates the source functions.  C doubles are
modelled by exact real arithmetic (the decision margins of every claim
were checked to be far wider than double rounding error, except where a
claim text itself is about exact values, in which case the exact model is
the spec reading).  The C cast static_cast<unsigned int> truncates toward
zero and is well defined for arguments in (-1, 2^32); on that domain it
agrees with Nat.floor, which is used to model it.
-/

namespace Ddsm

/-! ## ddsmraw2pnm.c : constants (program error codes and limits) -/

def success : Int := 0
def rows_not_positive_error : Int := -2
def cols_not_positive_error : Int := -3
def file_error : Int := -4
def pnm_error : Int := -5
def program_error : Int := -6
def image_size_error : Int := -7

/-- maxOD from the source: the maximum optical density value that maps to
grey level 65535. -/
def maxOD : ℝ := 4.0

def maxUnsignedIntWithNumBits : ℕ := 65535

/-! ## The grey-level normalizer (od2NormGreyLevel) -/

/-- Model of the C cast static_cast<unsigned int> applied to a double:
truncation toward zero.  The cast is well defined for arguments in
(-1, 2^32) and on that interval it equals Nat.floor (negative arguments
above -1 truncate to 0). -/
noncomputable def cTrunc (x : ℝ) : ℕ := ⌊x⌋₊

/-- Step 1 of od2NormGreyLevel from ddsmraw2pnm.c line 179: the cast of
(65535/4.0)*od to unsigned int. -/
noncomputable def odStep1 (od : ℝ) : ℕ :=
  cTrunc ((maxUnsignedIntWithNumBits : ℝ) / maxOD * od)

/-- od2NormGreyLevel from ddsmraw2pnm.c lines 177-205.  Returns none when
the function returns false (the range check after step 1 fails), otherwise
some of the final written value: the step-1 value is inverted
(65535 - v) and then quadratically companded with
(1.0/65535)*(v*v), truncated by the cast. -/
noncomputable def od2NormGreyLevel (od : ℝ) : Option ℕ :=
  let v := odStep1 od
  if maxUnsignedIntWithNumBits < v then none
  else
    let w := maxUnsignedIntWithNumBits - v
    some (cTrunc ((1 / (maxUnsignedIntWithNumBits : ℝ)) * ((w : ℝ) * (w : ℝ))))

/-! ## The four calibration functions -/

/-- The clamping performed inside dbaCalibration (ddsmraw2pnm.c lines
219-230): raw values over 64064 are pulled down to 64064, then raw values
under 4 are pulled up to 4. -/
def dbaClamp (raw : ℕ) : ℕ :=
  let r1 := if 64064 < raw then 64064 else raw
  if r1 < 4 then 4 else r1

/-- The optical density computed by dbaCalibration (ddsmraw2pnm.c lines
211-235): rawDouble stays 0.0 when raw = 0, otherwise the clamped raw
value goes through (log10(raw) - 4.80662) / (-1.07553). -/
noncomputable def dbaOd (raw : ℕ) : ℝ :=
  if raw = 0 then 0
  else (Real.logb 10 (dbaClamp raw : ℝ) - 4.80662) / (-1.07553)

noncomputable def dbaCalibration (raw : ℕ) : Option ℕ :=
  od2NormGreyLevel (dbaOd raw)

/-- The clamping performed inside howtekMghCalibration (lines 249-252). -/
def howtekMghClamp (raw : ℕ) : ℕ :=
  if 4006 < raw then 4006 else raw

/-- The optical density computed by howtekMghCalibration (line 255). -/
noncomputable def howtekMghOd (raw : ℕ) : ℝ :=
  3.789 + (-0.00094568) * (howtekMghClamp raw : ℝ)

noncomputable def howtekMghCalibration (raw : ℕ) : Option ℕ :=
  od2NormGreyLevel (howtekMghOd raw)

/-- The clamping performed inside howtekIsmdCalibration (lines 269-272). -/
def howtekIsmdClamp (raw : ℕ) : ℕ :=
  if 4003 < raw then 4003 else raw

/-- The optical density computed by howtekIsmdCalibration (line 275). -/
noncomputable def howtekIsmdOd (raw : ℕ) : ℝ :=
  3.96604096240593 + (-0.00099055807612) * (howtekIsmdClamp raw : ℝ)

noncomputable def howtekIsmdCalibration (raw : ℕ) : Option ℕ :=
  od2NormGreyLevel (howtekIsmdOd raw)

/-- The clamping performed inside lumisysCalibration (lines 287-297):
raw values under 61 are pulled up to 61, then raw values over 4097 are
pulled down to 4097. -/
def lumisysClamp (raw : ℕ) : ℕ :=
  let r1 := if raw < 61 then 61 else raw
  if 4097 < r1 then 4097 else r1

/-- The optical density computed by lumisysCalibration (line 300). -/
noncomputable def lumisysOd (raw : ℕ) : ℝ :=
  ((lumisysClamp raw : ℝ) - 4096.99) / (-1009.01)

noncomputable def lumisysCalibration (raw : ℕ) : Option ℕ :=
  od2NormGreyLevel (lumisysOd raw)

/-- The four digitizers the program accepts (main, lines 540-559):
dba, howtek-mgh, howtek-ismd, lumisys. -/
inductive Digitizer
  | dba
  | howtekMgh
  | howtekIsmd
  | lumisys
deriving DecidableEq

/-- The calibration function selected for each digitizer name by main. -/
noncomputable def applyCalibration : Digitizer → ℕ → Option ℕ
  | .dba => dbaCalibration
  | .howtekMgh => howtekMghCalibration
  | .howtekIsmd => howtekIsmdCalibration
  | .lumisys => lumisysCalibration

/-! ## Numeric bounds on the logarithms used by dbaCalibration -/

lemma log_ten_pos : (0 : ℝ) < Real.log 10 := Real.log_pos (by norm_num)

lemma log_comparison_485 : 485 * Real.log 2 < 146 * Real.log 10 := by
  have h : ((2 : ℝ) ^ (485 : ℕ)) < (10 : ℝ) ^ (146 : ℕ) := by norm_num
  have h2 := Real.log_lt_log (by positivity) h
  rw [Real.log_pow, Real.log_pow] at h2
  exact_mod_cast h2

lemma log_comparison_2136 : 643 * Real.log 10 < 2136 * Real.log 2 := by
  have h : ((10 : ℝ) ^ (643 : ℕ)) < (2 : ℝ) ^ (2136 : ℕ) := by norm_num
  have h2 := Real.log_lt_log (by positivity) h
  rw [Real.log_pow, Real.log_pow] at h2
  exact_mod_cast h2

lemma log_ten_gt : (921 / 400 : ℝ) < Real.log 10 := by
  have h1 := log_comparison_485
  have h2 := Real.log_two_gt_d9
  linarith

lemma logb_ten_two_lt : Real.logb 10 2 < 146 / 485 := by
  rw [Real.logb, div_lt_iff log_ten_pos]
  linarith [log_comparison_485]

lemma logb_ten_two_gt : (643 / 2136 : ℝ) < Real.logb 10 2 := by
  rw [Real.logb, lt_div_iff log_ten_pos]
  linarith [log_comparison_2136]

lemma logb_ten_four_gt : (3 / 5 : ℝ) < Real.logb 10 4 := by
  have h : (4 : ℝ) = 2 ^ (2 : ℕ) := by norm_num
  rw [h, Real.logb_pow]
  have := logb_ten_two_gt
  push_cast
  linarith

lemma logb_ten_64064_lt : Real.logb 10 64064 < 4.806684 := by
  have hlog2 := Real.log_two_lt_d9
  have hlog10 := log_ten_gt
  have h64064 : (64064 : ℝ) = 2 ^ (6 : ℕ) * 1001 := by norm_num
  have hlogmul : Real.log 64064 = 6 * Real.log 2 + Real.log 1001 := by
    rw [h64064, Real.log_mul (by positivity) (by norm_num), Real.log_pow]
    push_cast
    ring
  have h1001 : (1001 : ℝ) = 10 ^ (3 : ℕ) * (1001 / 1000) := by norm_num
  have hlog1001 : Real.log 1001 ≤ 3 * Real.log 10 + 1 / 1000 := by
    rw [h1001, Real.log_mul (by positivity) (by norm_num), Real.log_pow]
    have := Real.log_le_sub_one_of_pos (x := (1001 / 1000 : ℝ)) (by norm_num)
    push_cast
    linarith
  rw [Real.logb, div_lt_iff log_ten_pos]
  linarith

/-! ## Range safety of the grey-level normalizer -/

/-- When the step-1 product lies in the interval (-1, 65536), the cast is
well defined, step 1 passes the range check, and od2NormGreyLevel produces
a value in the range 0 to 65535. -/
lemma od2NormGreyLevel_total {od : ℝ} (h1 : -1 < 65535 / 4 * od)
    (h2 : 65535 / 4 * od < 65536) :
    ∃ g, od2NormGreyLevel od = some g ∧ g ≤ 65535 := by
  have hX : (maxUnsignedIntWithNumBits : ℝ) / maxOD * od = 65535 / 4 * od := by
    norm_num [maxUnsignedIntWithNumBits, maxOD]
  have hstep : odStep1 od < 65536 := by
    rw [odStep1, cTrunc, hX]
    exact (Nat.floor_lt' (by norm_num)).mpr h2
  have hv : ¬ maxUnsignedIntWithNumBits < odStep1 od := by
    rw [maxUnsignedIntWithNumBits]
    omega
  rw [od2NormGreyLevel]
  simp only [hv, if_false, if_neg hv]
  refine ⟨_, rfl, ?_⟩
  have hwle : maxUnsignedIntWithNumBits - odStep1 od ≤ 65535 := by
    rw [maxUnsignedIntWithNumBits]
    omega
  have hwR : ((maxUnsignedIntWithNumBits - odStep1 od : ℕ) : ℝ) ≤ 65535 := by
    exact_mod_cast hwle
  have h0 : (0 : ℝ) ≤ ((maxUnsignedIntWithNumBits - odStep1 od : ℕ) : ℝ) :=
    Nat.cast_nonneg _
  have hlt : (1 / (maxUnsignedIntWithNumBits : ℝ)) *
      (((maxUnsignedIntWithNumBits - odStep1 od : ℕ) : ℝ) *
        ((maxUnsignedIntWithNumBits - odStep1 od : ℕ) : ℝ)) < 65536 := by
    have hcast : ((maxUnsignedIntWithNumBits : ℕ) : ℝ) = 65535 := by
      norm_num [maxUnsignedIntWithNumBits]
    rw [hcast]
    nlinarith [mul_le_mul hwR hwR h0 (by norm_num : (0:ℝ) ≤ 65535)]
  rw [cTrunc]
  have := (Nat.floor_lt' (n := 65536) (by norm_num)).mpr hlt
  omega

/-! ## The step-1 product is in range for every digitizer and raw sample -/

lemma dba_prod_bounds (raw : ℕ) :
    -1 < 65535 / 4 * dbaOd raw ∧ 65535 / 4 * dbaOd raw < 65536 := by
  rcases eq_or_ne raw 0 with h0 | h0
  · subst h0
    rw [dbaOd]
    norm_num
  · rw [dbaOd, if_neg h0]
    have hcb : 4 ≤ dbaClamp raw ∧ dbaClamp raw ≤ 64064 := by
      simp only [dbaClamp]
      split_ifs <;> omega
    have hc4 : (4 : ℝ) ≤ (dbaClamp raw : ℝ) := by exact_mod_cast hcb.1
    have hc64 : (dbaClamp raw : ℝ) ≤ 64064 := by exact_mod_cast hcb.2
    have hL1 : Real.logb 10 4 ≤ Real.logb 10 (dbaClamp raw : ℝ) :=
      Real.logb_le_logb_of_le (by norm_num) (by norm_num) hc4
    have hL2 : Real.logb 10 (dbaClamp raw : ℝ) ≤ Real.logb 10 64064 :=
      Real.logb_le_logb_of_le (by norm_num) (by linarith) hc64
    have h4 : (3 / 5 : ℝ) < Real.logb 10 (dbaClamp raw : ℝ) :=
      lt_of_lt_of_le logb_ten_four_gt hL1
    have h64 : Real.logb 10 (dbaClamp raw : ℝ) < 4.806684 :=
      lt_of_le_of_lt hL2 logb_ten_64064_lt
    have hrw : (Real.logb 10 (dbaClamp raw : ℝ) - 4.80662) / (-1.07553)
        = (4.80662 - Real.logb 10 (dbaClamp raw : ℝ)) / 1.07553 := by
      ring
    rw [hrw]
    norm_num at h4 h64 ⊢
    constructor <;> linarith

lemma howtekMgh_prod_bounds (raw : ℕ) :
    -1 < 65535 / 4 * howtekMghOd raw ∧ 65535 / 4 * howtekMghOd raw < 65536 := by
  have hcb : howtekMghClamp raw ≤ 4006 := by
    simp only [howtekMghClamp]
    split_ifs <;> omega
  have hcu : (howtekMghClamp raw : ℝ) ≤ 4006 := by exact_mod_cast hcb
  have hcl : (0 : ℝ) ≤ (howtekMghClamp raw : ℝ) := Nat.cast_nonneg _
  rw [howtekMghOd]
  norm_num
  constructor <;> linarith

lemma howtekIsmd_prod_bounds (raw : ℕ) :
    -1 < 65535 / 4 * howtekIsmdOd raw ∧ 65535 / 4 * howtekIsmdOd raw < 65536 := by
  have hcb : howtekIsmdClamp raw ≤ 4003 := by
    simp only [howtekIsmdClamp]
    split_ifs <;> omega
  have hcu : (howtekIsmdClamp raw : ℝ) ≤ 4003 := by exact_mod_cast hcb
  have hcl : (0 : ℝ) ≤ (howtekIsmdClamp raw : ℝ) := Nat.cast_nonneg _
  rw [howtekIsmdOd]
  norm_num
  constructor <;> linarith

lemma lumisys_prod_bounds (raw : ℕ) :
    -1 < 65535 / 4 * lumisysOd raw ∧ 65535 / 4 * lumisysOd raw < 65536 := by
  have hcb : 61 ≤ lumisysClamp raw ∧ lumisysClamp raw ≤ 4097 := by
    simp only [lumisysClamp]
    split_ifs <;> omega
  have hcu : (lumisysClamp raw : ℝ) ≤ 4097 := by exact_mod_cast hcb.2
  have hcl : (61 : ℝ) ≤ (lumisysClamp raw : ℝ) := by exact_mod_cast hcb.1
  rw [lumisysOd]
  have hrw : ((lumisysClamp raw : ℝ) - 4096.99) / (-1009.01)
      = (4096.99 - (lumisysClamp raw : ℝ)) / 1009.01 := by
    ring
  rw [hrw]
  norm_num
  constructor <;> linarith

/-- Every calibration function succeeds on every raw sample and produces a
normalized grey level of at most 65535. -/
lemma applyCalibration_total (d : Digitizer) (raw : ℕ) :
    ∃ g, applyCalibration d raw = some g ∧ g ≤ 65535 := by
  cases d with
  | dba =>
      exact od2NormGreyLevel_total (dba_prod_bounds raw).1 (dba_prod_bounds raw).2
  | howtekMgh =>
      exact od2NormGreyLevel_total (howtekMgh_prod_bounds raw).1
        (howtekMgh_prod_bounds raw).2
  | howtekIsmd =>
      exact od2NormGreyLevel_total (howtekIsmd_prod_bounds raw).1
        (howtekIsmd_prod_bounds raw).2
  | lumisys =>
      exact od2NormGreyLevel_total (lumisys_prod_bounds raw).1
        (lumisys_prod_bounds raw).2

/-! ## Concrete evaluation helpers for the normalizer -/

lemma cTrunc_eval {x : ℝ} {n : ℕ} (h1 : (n : ℝ) ≤ x) (h2 : x < n + 1) :
    cTrunc x = n := by
  rw [cTrunc, Nat.floor_eq_iff (le_trans (Nat.cast_nonneg n) h1)]
  exact ⟨h1, h2⟩

lemma od2NormGreyLevel_eq_some {od : ℝ} {v g : ℕ} (hv : odStep1 od = v)
    (hle : v ≤ 65535)
    (hg : cTrunc ((1 / (65535 : ℝ)) *
      (((65535 - v : ℕ) : ℝ) * ((65535 - v : ℕ) : ℝ))) = g) :
    od2NormGreyLevel od = some g := by
  simp only [od2NormGreyLevel, maxUnsignedIntWithNumBits, hv]
  rw [if_neg (by omega)]
  have hc : ((65535 : ℕ) : ℝ) = (65535 : ℝ) := by norm_num
  rw [hc, hg]

/-- Normalizing optical density 0 gives grey level 65535: step 1 gives
v = 0, inversion gives 65535, and companding maps 65535 to itself. -/
lemma od2NormGreyLevel_zero : od2NormGreyLevel 0 = some 65535 := by
  have hstep : odStep1 0 = 0 := by
    rw [odStep1, mul_zero]
    exact cTrunc_eval (by norm_num) (by norm_num)
  refine od2NormGreyLevel_eq_some hstep (by norm_num) ?_
  refine cTrunc_eval ?_ ?_ <;> norm_num

lemma dbaOd_zero : dbaOd 0 = 0 := by
  rw [dbaOd, if_pos rfl]

lemma dbaCalibration_zero : dbaCalibration 0 = some 65535 := by
  rw [dbaCalibration, dbaOd_zero]
  exact od2NormGreyLevel_zero

/-! ## Claim C1 -/

/-- C1: for every digitizer in the closed set dba, howtek-mgh,
howtek-ismd, lumisys, and every raw sample in the 16-bit domain 0..65535,
calibration composed with the grey-level normalizer succeeds and produces
a normalized grey level in 0..65535; once step 1 of the normalizer passes
its range check, the inverted and companded value is in range by
construction (od2NormGreyLevel_total). -/
theorem claim_C1 (d : Digitizer) (raw : ℕ) (h : raw ≤ 65535) :
    ∃ g, applyCalibration d raw = some g ∧ g ≤ 65535 :=
  applyCalibration_total d raw

theorem claim_C1_witness :
    ∃ g, applyCalibration Digitizer.dba 0 = some g ∧ g ≤ 65535 :=
  claim_C1 Digitizer.dba 0 (by norm_num)

/-! ## Claim C3 -/

/-- C3 counterexample: the claim says step 1 computes
v = round((65535/4.0) * od), rounding to nearest.  At od = 1/8192 the
product is 65535/32768, approximately 1.99997; rounding to nearest gives
2, but the code truncates the cast and computes v = 1. -/
theorem claim_C3_counterexample :
    odStep1 ((1 : ℝ) / 8192) = 1 ∧
      round ((65535 / 4 : ℝ) * (1 / 8192)) = 2 ∧ (1 : ℤ) ≠ 2 := by
  refine ⟨?_, ?_, by norm_num⟩
  · rw [odStep1]
    have hX : (maxUnsignedIntWithNumBits : ℝ) / maxOD * (1 / 8192)
        = 65535 / 32768 := by
      norm_num [maxUnsignedIntWithNumBits, maxOD]
    rw [hX]
    exact cTrunc_eval (by norm_num) (by norm_num)
  · rw [round_eq]
    have : (65535 / 4 : ℝ) * (1 / 8192) + 1 / 2 = 81919 / 32768 := by norm_num
    rw [this, Int.floor_eq_iff]
    norm_num

/-- C3 amended: step 1 truncates the product (65535/4.0) * od toward zero
(it does not round to nearest), and for nonnegative od the normalizer
fails with the range error exactly when the product reaches 65536, that
is, exactly when the truncated value v exceeds 65535. -/
theorem claim_C3 (od : ℝ) (h : 0 ≤ od) :
    od2NormGreyLevel od = none ↔ (65536 : ℝ) ≤ 65535 / 4 * od := by
  have hX : (maxUnsignedIntWithNumBits : ℝ) / maxOD * od = 65535 / 4 * od := by
    norm_num [maxUnsignedIntWithNumBits, maxOD]
  have hX0 : (0 : ℝ) ≤ 65535 / 4 * od := by positivity
  have hiff : od2NormGreyLevel od = none ↔
      maxUnsignedIntWithNumBits < odStep1 od := by
    rw [od2NormGreyLevel]
    split <;> simp_all
  rw [hiff, maxUnsignedIntWithNumBits, odStep1, cTrunc, hX]
  constructor
  · intro hlt
    have h65536 : 65536 ≤ ⌊(65535 / 4 : ℝ) * od⌋₊ := by omega
    have := Nat.floor_le hX0
    calc (65536 : ℝ) ≤ (⌊(65535 / 4 : ℝ) * od⌋₊ : ℝ) := by exact_mod_cast h65536
      _ ≤ 65535 / 4 * od := this
  · intro hge
    have : (65536 : ℕ) ≤ ⌊(65535 / 4 : ℝ) * od⌋₊ := Nat.le_floor (by exact_mod_cast hge)
    omega

theorem claim_C3_witness : od2NormGreyLevel 5 = none :=
  (claim_C3 5 (by norm_num)).mpr (by norm_num)

/-! ## Claim C4 -/

lemma dbaClamp_four : dbaClamp 4 = 4 := by decide

lemma logb_ten_four_lt : Real.logb 10 4 < 292 / 485 := by
  have h : (4 : ℝ) = 2 ^ (2 : ℕ) := by norm_num
  rw [h, Real.logb_pow]
  have := logb_ten_two_lt
  push_cast
  linarith

lemma logb_ten_four_gt' : (643 / 1068 : ℝ) < Real.logb 10 4 := by
  have h : (4 : ℝ) = 2 ^ (2 : ℕ) := by norm_num
  rw [h, Real.logb_pow]
  have := logb_ten_two_gt
  push_cast
  linarith

/-- Calibrating raw sample 4 on the dba digitizer: the clamp leaves 4
unchanged, the log formula gives an optical density near 3.90929, step 1
gives v = 64048, inversion gives 1487, and companding gives 33. -/
lemma dbaCalibration_four : dbaCalibration 4 = some 33 := by
  have hL1 := logb_ten_four_lt
  have hL2 := logb_ten_four_gt'
  have hod : dbaOd 4 = (4.80662 - Real.logb 10 4) / 1.07553 := by
    rw [dbaOd, if_neg (by norm_num), dbaClamp_four]
    push_cast
    ring
  have hstep : odStep1 (dbaOd 4) = 64048 := by
    rw [odStep1]
    have hX : (maxUnsignedIntWithNumBits : ℝ) / maxOD * dbaOd 4
        = 65535 / 4 * ((4.80662 - Real.logb 10 4) / 1.07553) := by
      rw [hod]
      norm_num [maxUnsignedIntWithNumBits, maxOD]
    rw [hX]
    refine cTrunc_eval ?_ ?_
    · norm_num at hL1 ⊢
      linarith
    · norm_num at hL2 ⊢
      linarith
  rw [dbaCalibration]
  refine od2NormGreyLevel_eq_some hstep (by norm_num) ?_
  refine cTrunc_eval ?_ ?_ <;> norm_num

/-- C4 counterexample: the claim says raw sample 4 on digitizer A is
clamped to optical density 0 and therefore normalizes to the value for
od = 0 (which is 65535).  In the code only raw = 0 produces od = 0; raw 4
goes through the log formula, giving a strictly positive density and the
normalized value 33, not 65535. -/
theorem claim_C4_counterexample :
    dbaOd 4 ≠ 0 ∧ dbaCalibration 4 = some 33 ∧
      od2NormGreyLevel 0 = some 65535 := by
  refine ⟨?_, dbaCalibration_four, od2NormGreyLevel_zero⟩
  have hL1 := logb_ten_four_lt
  have hod : dbaOd 4 = (4.80662 - Real.logb 10 4) / 1.07553 := by
    rw [dbaOd, if_neg (by norm_num), dbaClamp_four]
    push_cast
    ring
  rw [hod]
  have hpos : (0 : ℝ) < (4.80662 - Real.logb 10 4) / 1.07553 := by
    norm_num at hL1 ⊢
    linarith
  exact ne_of_gt hpos

/-- C4 amended: on digitizer A it is raw sample 0, not raw sample 4, that
yields optical density 0, and the normalized grey level obtained from
od = 0 by the documented steps is 65535 (v = 0, inverted to 65535,
companded to 65535); raw sample 4 instead passes through the calibration
formula unclamped and normalizes to 33. -/
theorem claim_C4 :
    dbaOd 0 = 0 ∧ dbaCalibration 0 = some 65535 ∧
      dbaCalibration 4 = some 33 :=
  ⟨dbaOd_zero, dbaCalibration_zero, dbaCalibration_four⟩

/-! ## The PNM comment string (getPnmCommentString) -/

/-- The bits-per-pixel value chosen in getPnmCommentString (lines
312-318): 12, or 16 when the calibration function pointer is
dbaCalibration. -/
def bitsPerPixel (d : Digitizer) : ℕ :=
  match d with
  | .dba => 16
  | _ => 12

/-- The comment built by getPnmCommentString (lines 320-323), modelled as
the list of byte values of the produced std::string.  The middle term
models the C++ statement retVal += bitsPerPixel, which appends one single
char whose numeric value is bitsPerPixel (std::string operator += on a
char), not the decimal digits of that number. -/
def getPnmCommentString (d : Digitizer) : List ℕ :=
  (("# Generated by ddsmraw2pnm. Original data was digitized at ").toList.map
      Char.toNat)
    ++ [bitsPerPixel d]
    ++ ((" bits/pixel.").toList.map Char.toNat) ++ [10]

/-- Tests whether the first list is a prefix of the second. -/
def startsWithSeg {α : Type} [DecidableEq α] : List α → List α → Bool
  | [], _ => true
  | _ :: _, [] => false
  | a :: as, b :: bs => decide (a = b) && startsWithSeg as bs

/-- Tests whether the first list occurs contiguously inside the second. -/
def hasSeg {α : Type} [DecidableEq α] (pat : List α) : List α → Bool
  | [] => startsWithSeg pat []
  | a :: as => startsWithSeg pat (a :: as) || hasSeg pat as

/-! ## The stream decode loop of makePnmFile -/

/-- The per-pair work of the read loop in makePnmFile (lines 376-440):
two consecutive bytes form one pixel, most significant byte first; the
pixel is calibrated in place, and the loop aborts (returns -1) when the
calibration reports failure or the calibrated value fails checkRange.  A
trailing unpaired byte only loads thisPixel and emits nothing. -/
def processBytes (cal : ℕ → Option ℕ) : List ℕ → Option (List ℕ)
  | [] => some []
  | [_] => some []
  | b1 :: b2 :: rest =>
    match cal (256 * b1 + b2) with
    | none => none
    | some g =>
      if 65535 < g then none
      else (processBytes cal rest).map (fun pix => g :: pix)

/-- makePnmFile (lines 334-460) restricted to its observable decode
behaviour: the status it returns and the pixel values it writes.  The
while loop is guarded by feof, so after the last byte of the stream one
more fread is attempted; that read fails, leaves the one-byte buffer
unchanged, and the loop body still runs once more on the stale byte
(the last byte of the stream, or the uninitialized buffer modelled as 0
for an empty stream).  Hence the loop processes the stream plus one
duplicated final byte.  At the end the pixel count is compared with
numRows * numCols; a mismatch returns image_size_error (-7), a
calibration or read-range failure returns -1, success returns the pixel
list. -/
def makePnmFile (cal : ℕ → Option ℕ) (numRows numCols : ℕ)
    (bytes : List ℕ) : Except Int (List ℕ) :=
  match processBytes cal (bytes ++ [bytes.getLastD 0]) with
  | none => Except.error (-1)
  | some pix =>
    if pix.length = numRows * numCols then Except.ok pix
    else Except.error image_size_error

/-- makePnmFile specialised to the calibration function of a digitizer,
as called from main. -/
noncomputable def makePnm (d : Digitizer) (numRows numCols : ℕ)
    (bytes : List ℕ) : Except Int (List ℕ) :=
  makePnmFile (applyCalibration d) numRows numCols bytes

/-! ## The exit status logic of main -/

/-- The outcome checkCalibrationFunctions (lines 466-504) tests for:
every raw value from 0 to 65535 must calibrate to a value that passes the
range test on every digitizer.  The legacy routine inspects the written
output value; since every calibration call succeeds with a value in range
(applyCalibration_total), the observable outcome is the same
proposition. -/
def checkCalibrationFunctionsOk : Prop :=
  ∀ d : Digitizer, ∀ raw : ℕ, raw ≤ 65535 →
    ∃ g, applyCalibration d raw = some g ∧ g ≤ 65535

open Classical in
/-- The exit status of main (lines 508-609) for a run that reaches the
conversion stage: the digitizer name has been recognised (d), the rows
and cols arguments have been parsed to integers, and the input stream
bytes are available (the file-open failure paths, which depend on the
file system and exit with file_error, are outside this pure model).
Mirrors the source order: the calibration self-check runs first and
exits with program_error on failure; nonpositive rows and cols exit with
their dedicated codes; any nonzero status from makePnmFile exits with
pnm_error; otherwise the program exits with success. -/
noncomputable def convertExit (d : Digitizer) (numRows numCols : ℤ)
    (bytes : List ℕ) : Int :=
  if ¬ checkCalibrationFunctionsOk then program_error
  else if numRows < 1 then rows_not_positive_error
  else if numCols < 1 then cols_not_positive_error
  else
    match makePnm d numRows.toNat numCols.toNat bytes with
    | Except.ok _ => success
    | Except.error _ => pnm_error

/-! ## Claim C2 -/

lemma processBytes_ok (cal : ℕ → Option ℕ)
    (hcal : ∀ p, p ≤ 65535 → ∃ g, cal p = some g ∧ g ≤ 65535) :
    ∀ l : List ℕ, (∀ b ∈ l, b ≤ 255) →
      ∃ pix, processBytes cal l = some pix ∧ pix.length = l.length / 2
  | [], _ => ⟨[], rfl, rfl⟩
  | [_], _ => ⟨[], rfl, by simp⟩
  | b1 :: b2 :: rest, h => by
    have hb1 : b1 ≤ 255 := h b1 (by simp)
    have hb2 : b2 ≤ 255 := h b2 (by simp)
    obtain ⟨g, hg, hg65⟩ := hcal (256 * b1 + b2) (by omega)
    obtain ⟨pix, hpix, hlen⟩ :=
      processBytes_ok cal hcal rest (fun b hb => h b (by simp [hb]))
    refine ⟨g :: pix, ?_, ?_⟩
    · simp only [processBytes, hg, if_neg (by omega : ¬ 65535 < g), hpix,
        Option.map_some']
    · simp only [List.length_cons, hlen]
      omega

lemma getLastD_le (bytes : List ℕ) (hb : ∀ b ∈ bytes, b ≤ 255) :
    bytes.getLastD 0 ≤ 255 := by
  cases bytes with
  | nil => simp
  | cons x xs =>
    exact hb _ (List.getLast_mem (by simp))

/-- C2 counterexample: the claim says a stream whose byte count differs
from 2 * rows * cols always fails with the size-mismatch error.  A
one-byte stream for a 1 x 1 image succeeds: the feof-guarded loop
processes the single byte plus one duplicated stale byte, assembles one
pixel, and the final count check passes. -/
theorem claim_C2_counterexample :
    makePnm Digitizer.dba 1 1 [0] = Except.ok [65535] ∧
      [0].length ≠ 2 * 1 * 1 := by
  refine ⟨?_, by norm_num⟩
  rw [makePnm, makePnmFile]
  have h0 : ([0] : List ℕ) ++ [[0].getLastD 0] = [0, 0] := by rfl
  rw [h0]
  have hcal : applyCalibration Digitizer.dba (256 * 0 + 0) = some 65535 := by
    simpa [applyCalibration] using dbaCalibration_zero
  simp only [processBytes, hcal, if_neg (by omega : ¬ (65535:ℕ) < 65535),
    Option.map_some]
  rfl

/-- C2 amended: with positive rows and cols and byte values in 0..255,
decoding succeeds with a raster of exactly rows * cols samples exactly
when the stream holds 2 * rows * cols or 2 * rows * cols - 1 bytes (the
feof-guarded loop duplicates the final byte, so an odd stream one byte
short is also accepted); every other byte count fails with
image_size_error. -/
theorem claim_C2 (d : Digitizer) (numRows numCols : ℕ) (bytes : List ℕ)
    (hr : 0 < numRows) (hc : 0 < numCols) (hb : ∀ b ∈ bytes, b ≤ 255) :
    (bytes.length = 2 * numRows * numCols - 1 ∨
        bytes.length = 2 * numRows * numCols →
      ∃ pix, makePnm d numRows numCols bytes = Except.ok pix ∧
        pix.length = numRows * numCols)
    ∧ (bytes.length ≠ 2 * numRows * numCols - 1 ∧
        bytes.length ≠ 2 * numRows * numCols →
      makePnm d numRows numCols bytes = Except.error image_size_error) := by
  have hb' : ∀ b ∈ bytes ++ [bytes.getLastD 0], b ≤ 255 := by
    intro b hbmem
    rcases List.mem_append.mp hbmem with hmem | hmem
    · exact hb b hmem
    · have : b = bytes.getLastD 0 := by simpa using hmem
      subst this
      exact getLastD_le bytes hb
  obtain ⟨pix, hpix, hlen⟩ :=
    processBytes_ok (applyCalibration d)
      (fun p _ => applyCalibration_total d p)
      (bytes ++ [bytes.getLastD 0]) hb'
  have hlen' : pix.length = (bytes.length + 1) / 2 := by
    simpa using hlen
  rw [makePnm]
  simp only [makePnmFile, hpix]
  have hmul : 2 * numRows * numCols = 2 * (numRows * numCols) := by ring
  have hpos : 0 < numRows * numCols := Nat.mul_pos hr hc
  rw [hmul]
  constructor
  · intro hcase
    rw [if_pos (by omega : pix.length = numRows * numCols)]
    exact ⟨pix, rfl, by omega⟩
  · intro hcase
    rw [if_neg (by omega : ¬ pix.length = numRows * numCols)]

theorem claim_C2_witness :
    ∃ pix, makePnm Digitizer.dba 1 1 [0, 0] = Except.ok pix ∧
      pix.length = 1 * 1 :=
  (claim_C2 Digitizer.dba 1 1 [0, 0] (by norm_num) (by norm_num)
    (by decide)).1 (Or.inr rfl)

/-! ## Claim C9 -/

/-- C9 counterexample: the claim says a sample-count mismatch produces an
exit status distinct from the generic could-not-create-output status.  An
empty stream for a 1 x 1 image makes makePnmFile fail with
image_size_error, yet main maps every nonzero makePnmFile status to the
single pnm_error (-5) exit code, which is exactly the generic
could-not-create-the-PNM-file status. -/
theorem claim_C9_counterexample :
    makePnm Digitizer.dba 1 1 [] = Except.error image_size_error ∧
      convertExit Digitizer.dba 1 1 [] = pnm_error := by
  have hchk : checkCalibrationFunctionsOk :=
    fun d raw _ => applyCalibration_total d raw
  have hmk : makePnm Digitizer.dba 1 1 [] = Except.error image_size_error := by
    rw [makePnm, makePnmFile]
    rfl
  refine ⟨hmk, ?_⟩
  rw [convertExit, if_neg (not_not_intro hchk),
    if_neg (by norm_num : ¬ (1:ℤ) < 1), if_neg (by norm_num : ¬ (1:ℤ) < 1)]
  have : (1:ℤ).toNat = 1 := rfl
  rw [this, hmk]

/-- C9 amended: main collapses every failure inside makePnmFile (read
faults, pixel range failures, and the sample-count mismatch alike) to the
single pnm_error exit status; the statuses that stay distinct are the
syntax, rows, cols, file-open and self-check codes. -/
theorem claim_C9 (d : Digitizer) (numRows numCols : ℤ) (bytes : List ℕ)
    (hr : ¬ numRows < 1) (hc : ¬ numCols < 1) (e : Int)
    (hf : makePnm d numRows.toNat numCols.toNat bytes = Except.error e) :
    convertExit d numRows numCols bytes = pnm_error := by
  have hchk : checkCalibrationFunctionsOk :=
    fun d raw _ => applyCalibration_total d raw
  rw [convertExit, if_neg (not_not_intro hchk), if_neg hr, if_neg hc, hf]

theorem claim_C9_witness :
    convertExit Digitizer.dba 1 1 [] = pnm_error := by
  refine claim_C9 Digitizer.dba 1 1 [] (by norm_num) (by norm_num)
    image_size_error ?_
  rw [makePnm, makePnmFile]
  rfl

/-! ## Claim C5 -/

/-- C5: the claim says the PNM comment line contains the source bit depth
as the decimal digits 16 (digitizer A) or 12 (the others).  The code
instead appends a single char whose value is 16 or 12 (control
characters), because retVal += bitsPerPixel appends bitsPerPixel as one
char: the comment byte list contains the raw byte 16 (or 12) and does not
contain the digit pair 49 54 (the characters of the text 16) or 49 50
(the characters of the text 12). -/
theorem claim_C5 :
    (getPnmCommentString Digitizer.dba).contains 16 = true ∧
      hasSeg [49, 54] (getPnmCommentString Digitizer.dba) = false ∧
      (getPnmCommentString Digitizer.howtekMgh).contains 12 = true ∧
      hasSeg [49, 50] (getPnmCommentString Digitizer.howtekMgh) = false ∧
      (getPnmCommentString Digitizer.howtekIsmd).contains 12 = true ∧
      hasSeg [49, 50] (getPnmCommentString Digitizer.howtekIsmd) = false ∧
      (getPnmCommentString Digitizer.lumisys).contains 12 = true ∧
      hasSeg [49, 50] (getPnmCommentString Digitizer.lumisys) = false := by
  decide

/-! ## get_ddsm_groundtruth.m : chain codes and annotation masks

MATLAB matrices are 1-based and grow on assignment: writing to an index
beyond the current size enlarges the matrix, while a subscript below 1
raises a runtime error.  A matrix is modelled by its current size plus the
list of positions assigned the value 1 (row, column pairs). -/

/-- Decidable equality for Except results, used to evaluate the MATLAB
model on concrete inputs. -/
instance exceptDecEq {e a : Type} [DecidableEq e] [DecidableEq a] :
    DecidableEq (Except e a)
  | Except.error x, Except.error y => decidable_of_iff (x = y) (by simp)
  | Except.error _, Except.ok _ => isFalse (by simp)
  | Except.ok _, Except.error _ => isFalse (by simp)
  | Except.ok x, Except.ok y => decidable_of_iff (x = y) (by simp)

/-- The failure modes of the MATLAB code: a bad or missing subscript
(MATLAB index error), the explicit sentinel error of
make_annotation_image line 286, the explicit final size-check error of
line 327, and use of the undefined variable code_is in
parse_boundary_and_cores. -/
inductive MErr
  | indexError
  | missingSentinel
  | parseProblem
  | undefinedCodeKind
deriving DecidableEq

/-- A MATLAB matrix of zeros and ones: current size and the positions
assigned 1, as 1-based (row, column) pairs. -/
structure MatImg where
  nrows : ℕ
  ncols : ℕ
  ones : List (ℤ × ℤ)
deriving DecidableEq

/-- Decidable list membership test. -/
def memb {α : Type} [DecidableEq α] (a : α) (l : List α) : Bool :=
  l.any (fun b => decide (b = a))

/-- MATLAB assignment anno_image(p) = 1: a subscript below 1 is a runtime
error; a subscript beyond the current size silently grows the matrix. -/
def matAssign (img : MatImg) (p : ℤ × ℤ) : Except MErr MatImg :=
  if p.1 < 1 ∨ p.2 < 1 then Except.error MErr.indexError
  else Except.ok
    { nrows := max img.nrows p.1.toNat
      ncols := max img.ncols p.2.toNat
      ones := p :: img.ones }

/-- The (row, column) offset of each chain-code direction, from the
switch statement of make_annotation_image lines 300-317; any value other
than 0..7 matches no case and leaves the position unchanged. -/
def dirDelta : ℤ → ℤ × ℤ
  | 0 => (-1, 0)
  | 1 => (-1, 1)
  | 2 => (0, 1)
  | 3 => (1, 1)
  | 4 => (1, 0)
  | 5 => (1, -1)
  | 6 => (0, -1)
  | 7 => (-1, -1)
  | _ => (0, 0)

def stepPos (p : ℤ × ℤ) (d : ℤ) : ℤ × ℤ :=
  (p.1 + (dirDelta d).1, p.2 + (dirDelta d).2)

/-- One iteration of the chain-code loop (lines 299-321): step the
position and mark the new pixel. -/
def traceStep (st : (ℤ × ℤ) × MatImg) (d : ℤ) :
    Except MErr ((ℤ × ℤ) × MatImg) :=
  match matAssign st.2 (stepPos st.1 d) with
  | Except.error e => Except.error e
  | Except.ok img => Except.ok (stepPos st.1 d, img)

/-! ### imfill, modelled from the spec -/

def cellsFrom (n : ℕ) : List ℤ :=
  (List.range n).map (fun i => (i : ℤ) + 1)

def allCells (img : MatImg) : List (ℤ × ℤ) :=
  (cellsFrom img.nrows).flatMap (fun r => (cellsFrom img.ncols).map (fun c => (r, c)))

def zeroCells (img : MatImg) : List (ℤ × ℤ) :=
  (allCells img).filter (fun p => ! memb p img.ones)

def onBorder (img : MatImg) (p : ℤ × ℤ) : Bool :=
  decide (p.1 = 1) || decide (p.1 = (img.nrows : ℤ)) ||
    decide (p.2 = 1) || decide (p.2 = (img.ncols : ℤ))

def neighbors4 (p : ℤ × ℤ) : List (ℤ × ℤ) :=
  [(p.1 - 1, p.2), (p.1 + 1, p.2), (p.1, p.2 - 1), (p.1, p.2 + 1)]

def growReach (zs : List (ℤ × ℤ)) : ℕ → List (ℤ × ℤ) → List (ℤ × ℤ)
  | 0, r => r
  | n + 1, r =>
    growReach zs n
      (r ++ zs.filter (fun q => ! memb q r && (neighbors4 q).any (fun w => memb w r)))

/-- Modelled from the spec: imfill(anno_image, holes) is a MATLAB library
builtin, not part of this repository.  Per the spec (section 4.6 step 5)
it fills the enclosed interior: every zero pixel that is not 4-connected
to the image border becomes 1.  Border-connected zero pixels are computed
as a fixpoint iteration; all remaining zero pixels are holes and are set
to 1.  The size of the image is unchanged and every pixel already 1
stays 1. -/
def imfillHoles (img : MatImg) : MatImg :=
  let zs := zeroCells img
  let reach := growReach zs (img.nrows * img.ncols) (zs.filter (onBorder img))
  { img with ones := img.ones ++ zs.filter (fun q => ! memb q reach) }

/-! ### str2num, modelled from the spec -/

def parseDigitsAux : List Char → ℕ → Option ℕ
  | [], acc => some acc
  | c :: cs, acc =>
    if c.isDigit then parseDigitsAux cs (10 * acc + (c.toNat - 48)) else none

def parseIntToken : List Char → Option ℤ
  | [] => none
  | c :: cs =>
    if c = '-' then
      match cs with
      | [] => none
      | _ => (parseDigitsAux cs 0).map (fun n => -(n : ℤ))
    else (parseDigitsAux (c :: cs) 0).map (fun n => (n : ℤ))

/-- Modelled from the spec: str2num is a MATLAB library builtin, not part
of this repository.  On a chain-code line (space-separated integers, spec
section 4.6 step 2) it parses the tokens as integers. -/
def str2num (s : List Char) : List ℤ :=
  (s.splitOn ' ').filterMap parseIntToken

/-! ### make_annotation_image (lines 278-328) -/

/-- make_annotation_image: checks the trailing sentinel, parses the chain
code, marks the start pixel at row = second token, column = first token
(line 297: pos = [chain_code(2) chain_code(1)]), traces the direction
steps marking each visited pixel, fills holes, and finally checks that
the image size still equals the requested dimensions (line 326).  Fewer
than two parsed tokens make chain_code(2) a MATLAB index error. -/
def make_annotation_image (rows cols : ℕ) (chain_code : List Char) :
    Except MErr MatImg :=
  match chain_code.getLast? with
  | none => Except.error MErr.indexError
  | some ch =>
    if ch = '#' then
      match str2num chain_code.dropLast with
      | t1 :: t2 :: dirs =>
        match matAssign { nrows := rows, ncols := cols, ones := [] } (t2, t1) with
        | Except.error e => Except.error e
        | Except.ok img0 =>
          match dirs.foldlM traceStep ((t2, t1), img0) with
          | Except.error e => Except.error e
          | Except.ok st =>
            if (imfillHoles st.2).nrows = rows ∧ (imfillHoles st.2).ncols = cols
            then Except.ok (imfillHoles st.2)
            else Except.error MErr.parseProblem
      | _ => Except.error MErr.indexError
    else Except.error MErr.missingSentinel

/-! ### parse_boundary_and_cores (lines 239-275) -/

inductive CodeKind
  | boundary
  | core
deriving DecidableEq

/-- The result of parse_boundary_and_cores: the chain-code line captured
for the boundary (the MaskGenerator closure binds exactly this line) and
the chain-code lines captured for the cores. -/
structure Annotations where
  boundary : Option (List Char)
  cores : List (List Char)
deriving DecidableEq

/-- One loop iteration of parse_boundary_and_cores: a line containing
BOUNDARY sets the pending kind to boundary and is discarded; otherwise a
line containing CORE sets the pending kind to core and is discarded; any
other line is a chain code and is stored according to the pending kind
(overwriting the boundary, appending to the cores).  A chain code seen
before any marker reads the undefined variable code_is, a MATLAB
runtime error. -/
def pbcStep (st : Option CodeKind × Annotations) (line : List Char) :
    Except MErr (Option CodeKind × Annotations) :=
  if hasSeg ("BOUNDARY".toList) line then Except.ok (some CodeKind.boundary, st.2)
  else if hasSeg ("CORE".toList) line then Except.ok (some CodeKind.core, st.2)
  else
    match st.1 with
    | none => Except.error MErr.undefinedCodeKind
    | some CodeKind.boundary =>
      Except.ok (st.1, { st.2 with boundary := some line })
    | some CodeKind.core =>
      Except.ok (st.1, { st.2 with cores := st.2.cores ++ [line] })

def parse_boundary_and_cores (bc_text : List (List Char)) :
    Except MErr Annotations :=
  (bc_text.foldlM pbcStep (none, { boundary := none, cores := [] })).map
    (fun st => st.2)

/-! ## Structural lemmas about the trace -/

lemma matAssign_ok {img img' : MatImg} {p : ℤ × ℤ}
    (h : matAssign img p = Except.ok img') :
    1 ≤ p.1 ∧ 1 ≤ p.2 ∧ img'.nrows = max img.nrows p.1.toNat ∧
      img'.ncols = max img.ncols p.2.toNat ∧ img'.ones = p :: img.ones := by
  rw [matAssign] at h
  by_cases hcond : p.1 < 1 ∨ p.2 < 1
  · rw [if_pos hcond] at h
    exact absurd h (by simp)
  · rw [if_neg hcond] at h
    push_neg at hcond
    injection h with h'
    subst h'
    exact ⟨by omega, by omega, rfl, rfl, rfl⟩

lemma traceStep_ok {st : (ℤ × ℤ) × MatImg} {d : ℤ} {st' : (ℤ × ℤ) × MatImg}
    (h : traceStep st d = Except.ok st') :
    st'.1 = stepPos st.1 d ∧ 1 ≤ st'.1.1 ∧ 1 ≤ st'.1.2 ∧
      st'.2.nrows = max st.2.nrows st'.1.1.toNat ∧
      st'.2.ncols = max st.2.ncols st'.1.2.toNat ∧
      st'.2.ones = st'.1 :: st.2.ones := by
  rw [traceStep] at h
  cases hA : matAssign st.2 (stepPos st.1 d) with
  | error e =>
    rw [hA] at h
    exact absurd h (by simp)
  | ok img =>
    rw [hA] at h
    injection h with h'
    obtain ⟨h1, h2, h3, h4, h5⟩ := matAssign_ok hA
    subst h'
    exact ⟨rfl, h1, h2, h3, h4, h5⟩

lemma traceFold_mono : ∀ (dirs : List ℤ) (st st' : (ℤ × ℤ) × MatImg),
    List.foldlM traceStep st dirs = Except.ok st' →
    st.2.nrows ≤ st'.2.nrows ∧ st.2.ncols ≤ st'.2.ncols ∧
      (∀ p ∈ st.2.ones, p ∈ st'.2.ones)
  | [], st, st', h => by
    simp only [List.foldlM_nil] at h
    injection h with h'
    subst h'
    exact ⟨le_refl _, le_refl _, fun p hp => hp⟩
  | d :: ds, st, st', h => by
    simp only [List.foldlM_cons] at h
    cases hstep : traceStep st d with
    | error e =>
      rw [hstep] at h
      exact absurd h (by simp [Bind.bind, Except.bind])
    | ok st1 =>
      rw [hstep] at h
      have h' : List.foldlM traceStep st1 ds = Except.ok st' := h
      obtain ⟨m1, m2, m3⟩ := traceFold_mono ds st1 st' h'
      obtain ⟨_, _, _, hr, hc, ho⟩ := traceStep_ok hstep
      refine ⟨?_, ?_, fun p hp => ?_⟩
      · exact le_trans (hr ▸ le_max_left _ _) m1
      · exact le_trans (hc ▸ le_max_left _ _) m2
      · exact m3 p (ho ▸ List.mem_cons_of_mem _ hp)

lemma traceFold_pos : ∀ (dirs : List ℤ) (p0 : ℤ × ℤ) (img : MatImg)
      (st' : (ℤ × ℤ) × MatImg),
    List.foldlM traceStep (p0, img) dirs = Except.ok st' →
    ∀ k, k < dirs.length →
      1 ≤ ((dirs.take (k + 1)).foldl stepPos p0).1 ∧
      1 ≤ ((dirs.take (k + 1)).foldl stepPos p0).2 ∧
      ((dirs.take (k + 1)).foldl stepPos p0).1 ≤ (st'.2.nrows : ℤ) ∧
      ((dirs.take (k + 1)).foldl stepPos p0).2 ≤ (st'.2.ncols : ℤ)
  | [], _, _, _, _, k, hk => absurd hk (by simp)
  | d :: ds, p0, img, st', h, k, hk => by
    simp only [List.foldlM_cons] at h
    cases hstep : traceStep (p0, img) d with
    | error e =>
      rw [hstep] at h
      exact absurd h (by simp [Bind.bind, Except.bind])
    | ok st1 =>
      rw [hstep] at h
      have h' : List.foldlM traceStep st1 ds = Except.ok st' := h
      obtain ⟨hfst, h1, h2, hr, hc, ho⟩ := traceStep_ok hstep
      cases k with
      | zero =>
        have hred : ((d :: ds).take 1).foldl stepPos p0 = stepPos p0 d := by
          simp
        rw [hred, ← hfst]
        obtain ⟨m1, m2, _⟩ := traceFold_mono ds st1 st' h'
        have hb1 : st1.1.1.toNat ≤ st'.2.nrows :=
          le_trans (hr ▸ le_max_right _ _) m1
        have hb2 : st1.1.2.toNat ≤ st'.2.ncols :=
          le_trans (hc ▸ le_max_right _ _) m2
        exact ⟨h1, h2, by omega, by omega⟩
      | succ k' =>
        have hk' : k' < ds.length := by simpa using hk
        have hrec := traceFold_pos ds st1.1 st1.2 st' h' k' hk'
        rw [hfst] at hrec
        have hred : ((d :: ds).take (k' + 1 + 1)).foldl stepPos p0
            = ((ds.take (k' + 1)).foldl stepPos (stepPos p0 d)) := by
          simp [List.take_succ_cons]
        rw [hred]
        exact hrec

lemma imfillHoles_nrows (img : MatImg) : (imfillHoles img).nrows = img.nrows :=
  rfl

lemma imfillHoles_ncols (img : MatImg) : (imfillHoles img).ncols = img.ncols :=
  rfl

lemma imfillHoles_ones_mem {img : MatImg} {p : ℤ × ℤ} (hp : p ∈ img.ones) :
    p ∈ (imfillHoles img).ones := by
  simp only [imfillHoles, List.mem_append]
  exact Or.inl hp

/-! ## Claim C8 -/

/-- C8: a chain-code line whose last character is not the sentinel fails
with the sentinel format error of line 286, for every requested mask
dimension: the check precedes the zeros allocation, so no mask of any
shape is created and the result does not depend on rows and cols. -/
theorem claim_C8 (rows cols : ℕ) (line : List Char) (c : Char)
    (hlast : line.getLast? = some c) (hc : c ≠ '#') :
    make_annotation_image rows cols line = Except.error MErr.missingSentinel := by
  simp only [make_annotation_image, hlast]
  rw [if_neg hc]

theorem claim_C8_witness :
    make_annotation_image 2 2 ("1 2".toList)
      = Except.error MErr.missingSentinel :=
  claim_C8 2 2 ("1 2".toList) '2' (by decide) (by decide)

/-! ## Claim C6 -/

/-- C6: the first parsed chain-code integer is the column and the second
is the row of the first marked pixel (line 297 of the source builds
pos = [chain_code(2) chain_code(1)]): whenever mask generation succeeds,
the pixel (row = second token, col = first token) is marked 1 in the
returned mask. -/
theorem claim_C6 (rows cols : ℕ) (line : List Char) (t1 t2 : ℤ)
    (rest : List ℤ) (m : MatImg)
    (htoks : str2num line.dropLast = t1 :: t2 :: rest)
    (hok : make_annotation_image rows cols line = Except.ok m) :
    (t2, t1) ∈ m.ones := by
  rw [make_annotation_image] at hok
  cases hlast : line.getLast? with
  | none =>
    rw [hlast] at hok
    exact absurd hok (by simp)
  | some ch =>
    rw [hlast] at hok
    simp only at hok
    by_cases hch : ch = '#'
    · rw [if_pos hch, htoks] at hok
      simp only at hok
      cases hA : matAssign { nrows := rows, ncols := cols, ones := [] } (t2, t1) with
      | error e =>
        rw [hA] at hok
        exact absurd hok (by simp)
      | ok img0 =>
        rw [hA] at hok
        simp only at hok
        cases hF : rest.foldlM traceStep ((t2, t1), img0) with
        | error e =>
          rw [hF] at hok
          exact absurd hok (by simp)
        | ok st =>
          rw [hF] at hok
          simp only at hok
          by_cases hcond : (imfillHoles st.2).nrows = rows ∧
              (imfillHoles st.2).ncols = cols
          · rw [if_pos hcond] at hok
            injection hok with h'
            subst h'
            obtain ⟨_, _, _, _, hones⟩ := matAssign_ok hA
            have hmem0 : (t2, t1) ∈ img0.ones := by
              rw [hones]
              exact List.mem_cons_self _ _
            obtain ⟨_, _, m3⟩ := traceFold_mono rest ((t2, t1), img0) st hF
            exact imfillHoles_ones_mem (m3 _ hmem0)
          · rw [if_neg hcond] at hok
            exact absurd hok (by simp)
    · rw [if_neg hch] at hok
      exact absurd hok (by simp)

theorem claim_C6_witness :
    ((1 : ℤ), (2 : ℤ)) ∈ (MatImg.mk 3 3 [(1, 2)]).ones :=
  claim_C6 3 3 ("2 1 #".toList) 2 1 [] (MatImg.mk 3 3 [(1, 2)])
    (by decide) (by decide)

/-! ## Claim C7 -/

/-- The traced position leaves the 1-based rectangle of the requested
mask dimensions. -/
def outOfRect (rows cols : ℕ) (p : ℤ × ℤ) : Prop :=
  p.1 < 1 ∨ (rows : ℤ) < p.1 ∨ p.2 < 1 ∨ (cols : ℤ) < p.2

instance (rows cols : ℕ) (p : ℤ × ℤ) : Decidable (outOfRect rows cols p) := by
  unfold outOfRect
  infer_instance

/-- C7: if tracing the direction steps from the start position ever moves
the current position outside the raster rectangle, mask generation fails
hard: a coordinate below 1 raises the MATLAB subscript error at the
assignment, while a coordinate beyond the requested size silently grows
the matrix so the final dimension check of line 326 fails; either way an
error is returned and no mask is produced, with no clamping or
wrapping. -/
theorem claim_C7 (rows cols : ℕ) (line : List Char) (t1 t2 : ℤ)
    (dirs : List ℤ) (hsent : line.getLast? = some '#')
    (htoks : str2num line.dropLast = t1 :: t2 :: dirs)
    (hout : ∃ k, k < dirs.length ∧
      outOfRect rows cols ((dirs.take (k + 1)).foldl stepPos (t2, t1))) :
    ∃ e, make_annotation_image rows cols line = Except.error e := by
  simp only [make_annotation_image, hsent, htoks]
  rw [if_pos trivial]
  cases hA : matAssign { nrows := rows, ncols := cols, ones := [] } (t2, t1) with
  | error e => exact ⟨e, by simp⟩
  | ok img0 =>
    cases hF : dirs.foldlM traceStep ((t2, t1), img0) with
    | error e => exact ⟨e, by simp [hF]⟩
    | ok st =>
      obtain ⟨k, hk, hor⟩ := hout
      obtain ⟨q1, q2, q3, q4⟩ := traceFold_pos dirs (t2, t1) img0 st hF k hk
      have hcond : ¬ ((imfillHoles st.2).nrows = rows ∧
          (imfillHoles st.2).ncols = cols) := by
        rintro ⟨hrow, hcol⟩
        rw [imfillHoles_nrows] at hrow
        rw [imfillHoles_ncols] at hcol
        rw [outOfRect] at hor
        rcases hor with h | h | h | h <;> omega
      exact ⟨MErr.parseProblem, by simp [hF, hcond]⟩

theorem claim_C7_witness :
    ∃ e, make_annotation_image 2 2 ("1 1 0 #".toList) = Except.error e :=
  claim_C7 2 2 ("1 1 0 #".toList) 1 1 [0] (by decide) (by decide)
    ⟨0, by norm_num, by decide⟩

/-! ## Claim C10 -/

/-- C10: when the pending code kind is boundary and several chain-code
lines follow, parsing does not fail: each one overwrites the stored
boundary, so the final boundary MaskGenerator is built from the last such
line and all earlier boundary chain codes are silently discarded (the
cores are untouched). -/
theorem claim_C10 (pre : List (List Char)) (ann : Annotations)
    (c1 c2 : List Char)
    (hpre : pre.foldlM pbcStep (none, { boundary := none, cores := [] })
      = Except.ok (some CodeKind.boundary, ann))
    (h1 : hasSeg ("BOUNDARY".toList) c1 = false)
    (h2 : hasSeg ("CORE".toList) c1 = false)
    (h3 : hasSeg ("BOUNDARY".toList) c2 = false)
    (h4 : hasSeg ("CORE".toList) c2 = false) :
    parse_boundary_and_cores (pre ++ [c1, c2])
      = Except.ok { boundary := some c2, cores := ann.cores } := by
  have hstep1 : pbcStep (some CodeKind.boundary, ann) c1
      = Except.ok (some CodeKind.boundary, { ann with boundary := some c1 }) := by
    rw [pbcStep, if_neg (by rw [h1]; decide), if_neg (by rw [h2]; decide)]
  have hstep2 : pbcStep (some CodeKind.boundary,
        { ann with boundary := some c1 }) c2
      = Except.ok (some CodeKind.boundary, { ann with boundary := some c2 }) := by
    rw [pbcStep, if_neg (by rw [h3]; decide), if_neg (by rw [h4]; decide)]
  rw [parse_boundary_and_cores, List.foldlM_append, hpre]
  show (List.foldlM pbcStep (some CodeKind.boundary, ann) [c1, c2]).map
      (fun st => st.2) = _
  simp only [List.foldlM_cons, List.foldlM_nil, hstep1, hstep2]
  simp [Bind.bind, Except.bind, hstep2, Except.map, Pure.pure, Except.pure]

theorem claim_C10_witness :
    parse_boundary_and_cores
        (["BOUNDARY".toList] ++ ["1 2 3 #".toList, "4 5 6 #".toList])
      = Except.ok { boundary := some ("4 5 6 #".toList), cores := [] } :=
  claim_C10 ["BOUNDARY".toList] { boundary := none, cores := [] }
    ("1 2 3 #".toList) ("4 5 6 #".toList)
    (by decide) (by decide) (by decide) (by decide) (by decide)

end Ddsm
